import Mathlib

/-!
Verification of the request-collapser library.

The main model (`namespace RequestCollapser`) is a shallow embedding of
`createRequestCollapser` (the variant with `deduplicate`, `maxQueueLength`,
`flush` and `close`).  JavaScript runs the collapser single-threaded: all
queue/timer mutation happens between `await` points, so the program is
embedded as explicit state passing.  A promise's resolve/reject pair is
identified by a natural-number sink id allocated at `process` time; calling
`resolve v` / `reject e` on sink `i` is recorded as a settlement event
`(i, outcome)`.  A JavaScript `Map` is embedded as an association list with
first-occurrence lookup (`mapGet`), in-place update (`mapSet`) and removal
(`mapDelete`); `undefined` values are `Option.none`.

The second model (`namespace CreateCollapser`) embeds the settle phase of
`processQueue` from the `createCollapser` variant, whose batch function may
return a positional array (possibly with `undefined` slots) or a keyed map.
-/

namespace RequestCollapser

variable {T S E K V : Type}

/-- JS `Map.get`: the value of the first pair with the given key, or none. -/
def mapGet [DecidableEq K] : List (K × V) → K → Option V
  | [], _ => none
  | (k, v) :: rest, key => if k = key then some v else mapGet rest key

/-- JS `Map.set` on an existing key: replace the value in place. -/
def mapSet [DecidableEq K] : List (K × V) → K → V → List (K × V)
  | [], _, _ => []
  | (k, v) :: rest, key, val =>
    if k = key then (k, val) :: rest else (k, v) :: mapSet rest key val

/-- JS `Map.delete`: remove the (first) pair with the given key. -/
def mapDelete [DecidableEq K] : List (K × V) → K → List (K × V)
  | [], _ => []
  | (k, v) :: rest, key => if k = key then rest else (k, v) :: mapDelete rest key

/-- Errors thrown or used for rejection by the collapser:
`closed` is `Error('Request collapser was closed')`, `missingResult item` is
`Error('Batch processor did not return result for item: ...')`, and
`batchErr e` is an arbitrary error `e` thrown by the batch processor. -/
inductive JsErr (T E : Type)
  | closed
  | missingResult (item : T)
  | batchErr (e : E)
deriving DecidableEq, Repr

/-- How a pending promise is settled: `resolved v` models `resolve(v)` where
`v = none` stands for `undefined`; `rejected e` models `reject(e)`. -/
inductive SOutcome (T S E : Type)
  | resolved (v : Option S)
  | rejected (e : JsErr T E)
deriving DecidableEq, Repr

/-- A settlement event: sink id paired with the outcome delivered to it. -/
abbrev Settlement (T S E : Type) := Nat × SOutcome T S E

/-- The value returned by the batch processor: a JS `Map<T, S>` whose values
may be `undefined` (`none`). -/
abbrev JsMap (T S : Type) := List (T × Option S)

/-- A queue entry in non-deduplicate mode: `{ id, item, promise }`, where the
promise is identified by `id`. -/
structure QueueEntry (T : Type) where
  id : Nat
  item : T
deriving DecidableEq, Repr

/-- The collapser options (`RequestCollapserOptions`). -/
structure Config where
  timeoutMillis : Nat := 100
  debounce : Bool := false
  maxQueueLength : Option Nat := none
  deduplicate : Bool := false

/-- The mutable state captured by `createRequestCollapser`'s closure.
`nextSink` allocates promise identities (it plays the role of `nextId` and of
the identity of each resolve/reject pair); `timeoutArmed` is whether `timeout`
is non-null. -/
structure Collapser (T : Type) where
  closed : Bool
  timeoutArmed : Bool
  nextSink : Nat
  dedupeQueue : List T
  dedupePromises : List (T × List Nat)
  invocationQueue : List (QueueEntry T)
deriving DecidableEq, Repr

/-- The initial state of a freshly created collapser. -/
def initCollapser : Collapser T :=
  { closed := false, timeoutArmed := false, nextSink := 0,
    dedupeQueue := [], dedupePromises := [], invocationQueue := [] }

/-- `getEffectiveQueueLength`. -/
def effLen (cfg : Config) (st : Collapser T) : Nat :=
  if cfg.deduplicate then st.dedupeQueue.length else st.invocationQueue.length

/-- The snapshot taken synchronously at the start of `processBatch`: the
captured items together with the promises they settle. -/
inductive Batch (T : Type)
  | dedupe (items : List T) (groups : List (T × List Nat))
  | invoc (entries : List (QueueEntry T))
deriving DecidableEq, Repr

/-- The ordered list of items handed to the batch processor. -/
def batchItems : Batch T → List T
  | .dedupe items _ => items
  | .invoc entries => entries.map (·.item)

/-- All sink ids captured in a batch snapshot. -/
def batchSinks : Batch T → List Nat
  | .dedupe _ groups => (groups.map Prod.snd).flatten
  | .invoc entries => entries.map (·.id)

/-- The loop capturing `batchPromises` in deduplicate mode: for each item of
the snapshot move its promise group out of `dedupePromises`. Returns the
captured groups (in item order) and the remaining map. -/
def captureGroups [DecidableEq T] :
    List T → List (T × List Nat) → List (T × List Nat) × List (T × List Nat)
  | [], dp => ([], dp)
  | x :: rest, dp =>
    match mapGet dp x with
    | some g =>
      let pr := captureGroups rest (mapDelete dp x)
      ((x, g) :: pr.1, pr.2)
    | none => captureGroups rest dp

/-- The synchronous prefix of `processBatch` (everything before
`await batchProcessor(items)`): the closed check, clearing `timeout`, and the
snapshot-and-clear of the current queue generation. -/
def snapBatch [DecidableEq T] (cfg : Config) (st : Collapser T) :
    Option (Batch T) × Collapser T :=
  if st.closed then (none, st)
  else
    let st1 : Collapser T := { st with timeoutArmed := false }
    if cfg.deduplicate then
      let pr := captureGroups st1.dedupeQueue st1.dedupePromises
      (some (.dedupe st1.dedupeQueue pr.1),
        { st1 with dedupeQueue := [],
                   dedupePromises := pr.2 })
    else
      (some (.invoc st1.invocationQueue), { st1 with invocationQueue := [] })

/-- Resolve every promise of a group with the same value. -/
def resolveGroup (g : List Nat) (v : Option S) : List (Settlement T S E) :=
  g.map (fun i => (i, .resolved v))

/-- Reject every promise of a group with the same error. -/
def rejectGroup (g : List Nat) (e : JsErr T E) : List (Settlement T S E) :=
  g.map (fun i => (i, .rejected e))

/-- The `for (const [item, result] of results)` loop of deduplicate mode:
resolve the captured group of each returned item and remove it from
`batchPromises`; returns the settlements and the leftover groups. -/
def distributeDedupe [DecidableEq T] :
    JsMap T S → List (T × List Nat) → List (Settlement T S E) × List (T × List Nat)
  | [], bp => ([], bp)
  | (x, v) :: rest, bp =>
    match mapGet bp x with
    | some g =>
      let pr := distributeDedupe rest (mapDelete bp x)
      (resolveGroup g v ++ pr.1, pr.2)
    | none => distributeDedupe rest bp

/-- The per-entry settlement of non-deduplicate mode:
`const result = results.get(entry.item); if (result !== undefined ||
results.has(entry.item)) resolve(result) else reject(missingResult)`. -/
def lookupOutcome [DecidableEq T] (m : JsMap T S) (x : T) : SOutcome T S E :=
  let result := (mapGet m x).join
  if result.isSome || (mapGet m x).isSome then .resolved result
  else .rejected (.missingResult x)

/-- The asynchronous suffix of `processBatch`: distribute the batch
processor's outcome (`.ok` a result map, `.error` a thrown error) over the
promises captured in the snapshot.  The `.error` branches are the `catch`
blocks. -/
def settleBatch [DecidableEq T] (b : Batch T) (res : Except E (JsMap T S)) :
    List (Settlement T S E) :=
  match b with
  | .dedupe _ bp =>
    match res with
    | .ok m =>
      let pr := distributeDedupe m bp
      pr.1 ++ (pr.2.map (fun p => rejectGroup p.2 (.missingResult p.1))).flatten
    | .error e => (bp.map (fun p => rejectGroup p.2 (.batchErr e))).flatten
  | .invoc entries =>
    match res with
    | .ok m => entries.map (fun en => (en.id, lookupOutcome m en.item))
    | .error e => entries.map (fun en => (en.id, .rejected (.batchErr e)))

/-- The enqueue step of `process` (the body of the Promise executor before
the trigger check): allocate a sink and add it to the queue of the current
mode. -/
def pushItem [DecidableEq T] (cfg : Config) (st : Collapser T) (x : T) :
    Collapser T :=
  if cfg.deduplicate then
    match mapGet st.dedupePromises x with
    | some g =>
      { st with dedupePromises := mapSet st.dedupePromises x (g ++ [st.nextSink]),
                nextSink := st.nextSink + 1 }
    | none =>
      { st with dedupeQueue := st.dedupeQueue ++ [x],
                dedupePromises := st.dedupePromises ++ [(x, [st.nextSink])],
                nextSink := st.nextSink + 1 }
  else
    { st with invocationQueue := st.invocationQueue ++ [⟨st.nextSink, x⟩],
              nextSink := st.nextSink + 1 }

/-- The trigger check at the end of `process`: hitting `maxQueueLength`
clears the timer and dispatches immediately (synchronously, in the same
tick); otherwise (re)arm the timer when it is not armed or `debounce` is
set. -/
def triggerCheck [DecidableEq T] (cfg : Config) (st : Collapser T) :
    Option (Batch T) × Collapser T :=
  match cfg.maxQueueLength with
  | some m =>
    if m ≤ effLen cfg st then
      snapBatch cfg { st with timeoutArmed := false }
    else if !st.timeoutArmed || cfg.debounce then
      (none, { st with timeoutArmed := true })
    else (none, st)
  | none =>
    if !st.timeoutArmed || cfg.debounce then
      (none, { st with timeoutArmed := true })
    else (none, st)

/-- `process(item)`: throws `closed` when the collapser is closed, otherwise
enqueues a fresh pending request and runs the trigger check.  Returns the
thrown error or the new sink id, the batch dispatched synchronously (if
any), and the new state. -/
def processRun [DecidableEq T] (cfg : Config) (st : Collapser T) (x : T) :
    Except (JsErr T E) Nat × Option (Batch T) × Collapser T :=
  if st.closed then (.error .closed, none, st)
  else
    let st1 := pushItem cfg st x
    let pr := triggerCheck cfg st1
    (.ok st.nextSink, pr.1, pr.2)

/-- The synchronous part of `flush`: nothing when closed, otherwise cancel
the timer and dispatch the queue when it is non-empty. -/
def flushSnap [DecidableEq T] (cfg : Config) (st : Collapser T) :
    Option (Batch T) × Collapser T :=
  if st.closed then (none, st)
  else
    let st1 : Collapser T := { st with timeoutArmed := false }
    if 0 < effLen cfg st1 then snapBatch cfg st1 else (none, st1)

/-- `close()`: set the closed flag, cancel the timer, reject every queued
pending request with the closed error and clear the queue. -/
def closeRun (cfg : Config) (st : Collapser T) :
    List (Settlement T S E) × Collapser T :=
  let st1 : Collapser T := { st with closed := true, timeoutArmed := false }
  if cfg.deduplicate then
    ((st.dedupePromises.map (fun p => rejectGroup p.2 .closed)).flatten,
      { st1 with dedupeQueue := [], dedupePromises := [] })
  else
    (st.invocationQueue.map (fun en => (en.id, .rejected .closed)),
      { st1 with invocationQueue := [] })

/-- The events the single-threaded scheduler can interleave: a `process`
call, the timer firing, a `flush` call, a `close` call, and the completion
of the batch processor for the `i`-th batch currently in flight (with the
given outcome). -/
inductive Op (T S E : Type)
  | proc (item : T)
  | timerFire
  | flushCall
  | closeCall
  | settle (i : Nat) (res : Except E (JsMap T S))

/-- A run of the collapser: current state, the snapshots whose batch call is
still in flight, the settlement events emitted so far, and the sink ids of
every pending request created so far. -/
structure Run (T S E : Type) where
  col : Collapser T
  inflight : List (Batch T)
  events : List (Settlement T S E)
  created : List Nat

/-- The state of a freshly created collapser, before any operation. -/
def initRun : Run T S E :=
  { col := initCollapser, inflight := [], events := [], created := [] }

/-- One scheduler step. -/
def step [DecidableEq T] (cfg : Config) (r : Run T S E) : Op T S E → Run T S E
  | .proc x =>
    let out := processRun (E := E) cfg r.col x
    { col := out.2.2,
      inflight := r.inflight ++ out.2.1.toList,
      events := r.events,
      created := r.created ++ (match out.1 with | .ok i => [i] | .error _ => []) }
  | .timerFire =>
    if r.col.timeoutArmed then
      let pr := snapBatch cfg r.col
      { r with col := pr.2,
               inflight := r.inflight ++ pr.1.toList }
    else r
  | .flushCall =>
    let pr := flushSnap cfg r.col
    { r with col := pr.2,
             inflight := r.inflight ++ pr.1.toList }
  | .closeCall =>
    let pr := closeRun (S := S) (E := E) cfg r.col
    { r with col := pr.2,
             events := r.events ++ pr.1 }
  | .settle i res =>
    match r.inflight[i]? with
    | some b =>
      { r with inflight := r.inflight.eraseIdx i,
               events := r.events ++ settleBatch b res }
    | none => r

/-- Run a whole trace of operations from the initial state. -/
def runOps [DecidableEq T] (cfg : Config) (ops : List (Op T S E)) : Run T S E :=
  ops.foldl (step cfg) initRun

/-- The sink ids of the pending requests currently queued (the sinks the
effective queue holds in the current mode). -/
def queueSinks (cfg : Config) (st : Collapser T) : List Nat :=
  if cfg.deduplicate then (st.dedupePromises.map Prod.snd).flatten
  else st.invocationQueue.map (·.id)

/-- The sink ids captured in the in-flight snapshots. -/
def inflightSinks : List (Batch T) → List Nat
  | [] => []
  | b :: rest => batchSinks b ++ inflightSinks rest

/-- The sink ids settled so far. -/
def evIds (r : Run T S E) : List Nat := r.events.map Prod.fst

/-- All sink ids held by the promise groups of a dedupe map. -/
def groupSinks (dp : List (T × List Nat)) : List Nat :=
  (dp.map Prod.snd).flatten

/-- The batch a snapshot of the given open state captures: in deduplicate
mode the unique items with their promise groups, otherwise the invocation
entries. -/
def mkBatch (cfg : Config) (st : Collapser T) : Batch T :=
  if cfg.deduplicate then .dedupe st.dedupeQueue st.dedupePromises
  else .invoc st.invocationQueue

/-- The state left behind by a snapshot: timer cleared and the queue of the
current mode drained. -/
def stripQueues (cfg : Config) (st : Collapser T) : Collapser T :=
  if cfg.deduplicate then
    { st with timeoutArmed := false,
              dedupeQueue := [],
              dedupePromises := [] }
  else
    { st with timeoutArmed := false,
              invocationQueue := [] }

/-- `processBatch` as one function from the batch processor's outcome to the
settlements it performs and the state it leaves: the snapshot happens first,
then the outcome is distributed.  The `Except` layer is the promise returned
by `processBatch`: an `.error` would be an unhandled throw. -/
def processBatchFull [DecidableEq T] (cfg : Config) (st : Collapser T)
    (res : Except E (JsMap T S)) :
    Except (JsErr T E) (List (Settlement T S E) × Collapser T) :=
  match snapBatch cfg st with
  | (none, st1) => .ok ([], st1)
  | (some b, st1) => .ok (settleBatch b res, st1)

/-- `flush()` including the awaited `processBatch`: the promise it returns
(an `.error` would be a rejection of that promise). -/
def flushFull [DecidableEq T] (cfg : Config) (st : Collapser T)
    (res : Except E (JsMap T S)) :
    Except (JsErr T E) (List (Settlement T S E) × Collapser T) :=
  if st.closed then .ok ([], st)
  else
    let st1 : Collapser T := { st with timeoutArmed := false }
    if 0 < effLen cfg st1 then processBatchFull cfg st1 res
    else .ok ([], st1)

/-- Run a sequence of `process` calls, collecting the sink ids of the
pending requests they create.  (The batch-error type is irrelevant here, so
it is fixed to `Unit`.) -/
def submitAll [DecidableEq T] (cfg : Config) (st : Collapser T) :
    List T → Collapser T × List Nat
  | [] => (st, [])
  | x :: rest =>
    let out := processRun (E := Unit) cfg st x
    let pr := submitAll cfg out.2.2 rest
    (pr.1, (match out.1 with | .ok i => [i] | .error _ => []) ++ pr.2)

/-- The unique items of a list in first-seen order, continuing from the
items already seen (`acc`). -/
def firstSeenFrom [DecidableEq T] (acc : List T) : List T → List T
  | [] => acc
  | x :: rest =>
    if x ∈ acc then firstSeenFrom acc rest else firstSeenFrom (acc ++ [x]) rest

/-- The unique items of a list in first-seen order. -/
def firstSeen [DecidableEq T] (xs : List T) : List T :=
  firstSeenFrom [] xs

/-- The invocation-queue entries created for the items of `xs` when the next
free sink id is `n`. -/
def entriesFrom (n : Nat) : List T → List (QueueEntry T)
  | [] => []
  | x :: rest => ⟨n, x⟩ :: entriesFrom (n + 1) rest


/-- The reachability invariant of a run: the dedupe map's keys are exactly
the queued unique items, sink ids are allocated below `nextSink`, and the
created sinks are partitioned (as a multiset) among the settled events, the
queued requests and the in-flight snapshots. -/
structure GoodRun (cfg : Config) (r : Run T S E) : Prop where
  keysEq : r.col.dedupePromises.map Prod.fst = r.col.dedupeQueue
  queueNodup : r.col.dedupeQueue.Nodup
  queueBound : ∀ i ∈ queueSinks cfg r.col, i < r.col.nextSink
  flightBound : ∀ i ∈ inflightSinks r.inflight, i < r.col.nextSink
  evBound : ∀ i ∈ evIds r, i < r.col.nextSink
  createdNodup : r.created.Nodup
  part : (↑r.created : Multiset Nat) =
    ↑(evIds r) + ↑(queueSinks cfg r.col) + ↑(inflightSinks r.inflight)
  lenBound : ∀ m, cfg.maxQueueLength = some m → 1 ≤ m → effLen cfg r.col < m

end RequestCollapser

namespace CreateCollapser

open RequestCollapser (mapGet)

variable {A K R E : Type}

/-- The rejection errors of `processQueue`:
`countMismatch` is `Error('Batch function must return same number of results
as input items')`, `undefinedResult` is `Error('Batch function returned
undefined result')`, `missingResult` is `Error('Batch function must return a
result for each input item')`, and `batchErr e` an error thrown by the batch
function. -/
inductive CErr (E : Type)
  | countMismatch
  | undefinedResult
  | missingResult
  | batchErr (e : E)
deriving DecidableEq, Repr

/-- How the promise of one queue item settles. -/
inductive COut (R E : Type)
  | resolved (v : R)
  | rejected (e : CErr E)
deriving DecidableEq, Repr

/-- `BatchReturn<R>`: a positional array of results (slots may be
`undefined`) or a map from stringified args to results. -/
inductive BatchReturn (K R : Type)
  | arr (rs : List (Option R))
  | keyed (m : List (K × Option R))

/-- The result-distribution phase of `processQueue` over the drained
`currentQueue` (whose items are identified by their position): distribute a
positional array by index, a keyed map via `getKey`, and a thrown batch
error to every item.  `rs[index]` out of range is JS `undefined`. -/
def settleQueue [DecidableEq K] (getKey : A → K) (q : List A)
    (res : Except E (BatchReturn K R)) : List (Nat × COut R E) :=
  match res with
  | .error e => q.enum.map (fun p => (p.1, .rejected (.batchErr e)))
  | .ok (.keyed m) =>
    q.enum.map (fun p =>
      match (mapGet m (getKey p.2)).join with
      | some v => (p.1, .resolved v)
      | none => (p.1, .rejected .missingResult))
  | .ok (.arr rs) =>
    if rs.length ≠ q.length then
      q.enum.map (fun p => (p.1, .rejected .countMismatch))
    else
      q.enum.map (fun p =>
        match rs[p.1]? with
        | some (some v) => (p.1, .resolved v)
        | some none => (p.1, .rejected .undefinedResult)
        | none => (p.1, .rejected .undefinedResult))

end CreateCollapser
namespace RequestCollapser

set_option maxRecDepth 4000

variable {T S E K V : Type}

theorem mapGet_eq_none_iff [DecidableEq K] (m : List (K × V)) (k : K) :
    mapGet m k = none ↔ k ∉ m.map Prod.fst := by
  induction m with
  | nil => simp [mapGet]
  | cons p rest ih =>
    obtain ⟨k', v⟩ := p
    by_cases h : k' = k
    · subst h
      simp [mapGet]
    · simp only [mapGet, if_neg h, List.map_cons, List.mem_cons, ih]
      constructor
      · rintro hk (rfl | hmem)
        · exact h rfl
        · exact hk hmem
      · exact fun hk hmem => hk (Or.inr hmem)

theorem mapGet_of_mem_nodup [DecidableEq K] {m : List (K × V)} {k : K} {v : V}
    (hn : (m.map Prod.fst).Nodup) (hm : (k, v) ∈ m) : mapGet m k = some v := by
  induction m with
  | nil => simp at hm
  | cons p rest ih =>
    obtain ⟨k', v'⟩ := p
    simp only [List.map_cons, List.nodup_cons] at hn
    rcases List.mem_cons.mp hm with h | h
    · injection h with h1 h2
      subst h1
      subst h2
      simp [mapGet]
    · have hk : ¬k' = k := by
        rintro rfl
        exact hn.1 (List.mem_map_of_mem Prod.fst h)
      simp [mapGet, if_neg hk, ih hn.2 h]

theorem groupSinks_cons (p : T × List Nat) (rest : List (T × List Nat)) :
    groupSinks (p :: rest) = p.2 ++ groupSinks rest := by
  simp [groupSinks]

theorem mcoe_append (l₁ l₂ : List Nat) : (↑(l₁ ++ l₂) : Multiset Nat) = ↑l₁ + ↑l₂ := rfl

theorem mcoe_single (n : Nat) : (↑[n] : Multiset Nat) = {n} := rfl

theorem mapSet_keys [DecidableEq K] (m : List (K × V)) (k : K) (v : V) :
    (mapSet m k v).map Prod.fst = m.map Prod.fst := by
  induction m with
  | nil => simp [mapSet]
  | cons p rest ih =>
    obtain ⟨k', v'⟩ := p
    by_cases h : k' = k <;> simp [mapSet, h, ih]

theorem mapDelete_keys_sublist [DecidableEq K] (m : List (K × V)) (k : K) :
    List.Sublist ((mapDelete m k).map Prod.fst) (m.map Prod.fst) := by
  induction m with
  | nil => simp [mapDelete]
  | cons p rest ih =>
    obtain ⟨k', v'⟩ := p
    by_cases h : k' = k
    · simpa [mapDelete, h] using (List.sublist_cons_self ..)
    · simpa [mapDelete, h] using ih.cons₂ k'

theorem mem_mapDelete_of_ne [DecidableEq K] {m : List (K × V)} {k x : K} {v : V}
    (hm : (x, v) ∈ m) (hne : x ≠ k) : (x, v) ∈ mapDelete m k := by
  induction m with
  | nil => simp at hm
  | cons p rest ih =>
    obtain ⟨k', v'⟩ := p
    rcases List.mem_cons.mp hm with h | h
    · injection h with h1 h2
      subst h1
      subst h2
      simp [mapDelete, if_neg (fun hx => hne hx)]
    · by_cases hk : k' = k
      · subst hk
        simp only [mapDelete, reduceIte]
        exact h
      · simp only [mapDelete, if_neg hk]
        exact List.mem_cons.mpr (Or.inr (ih h))

theorem groupSinks_mapDelete [DecidableEq T] {dp : List (T × List Nat)} {x : T}
    {g : List Nat} (h : mapGet dp x = some g) :
    (↑(groupSinks dp) : Multiset Nat) = ↑g + ↑(groupSinks (mapDelete dp x)) := by
  induction dp with
  | nil => simp [mapGet] at h
  | cons p rest ih =>
    obtain ⟨k', g'⟩ := p
    by_cases hk : k' = x
    · subst hk
      simp [mapGet] at h
      subst h
      simp only [mapDelete, reduceIte, groupSinks_cons, mcoe_append]
    · simp only [mapGet, if_neg hk] at h
      simp only [mapDelete, if_neg hk, groupSinks_cons, mcoe_append]
      rw [ih h]
      abel

theorem groupSinks_mapSet [DecidableEq T] {dp : List (T × List Nat)} {x : T}
    {g : List Nat} (h : mapGet dp x = some g) (n : Nat) :
    (↑(groupSinks (mapSet dp x (g ++ [n]))) : Multiset Nat) = ↑(groupSinks dp) + {n} := by
  induction dp with
  | nil => simp [mapGet] at h
  | cons p rest ih =>
    obtain ⟨k', g'⟩ := p
    by_cases hk : k' = x
    · subst hk
      simp [mapGet] at h
      subst h
      simp only [mapSet, reduceIte, groupSinks_cons, mcoe_append, mcoe_single]
      abel
    · simp only [mapGet, if_neg hk] at h
      simp only [mapSet, if_neg hk, groupSinks_cons, mcoe_append]
      rw [ih h]
      abel

theorem captureGroups_self [DecidableEq T] (dp : List (T × List Nat)) :
    captureGroups (dp.map Prod.fst) dp = (dp, []) := by
  induction dp with
  | nil => simp [captureGroups]
  | cons p rest ih =>
    obtain ⟨k, g⟩ := p
    simp [captureGroups, mapGet, mapDelete, ih]

end RequestCollapser

namespace RequestCollapser

variable {T S E : Type}

theorem stripQueues_nextSink (cfg : Config) (st : Collapser T) :
    (stripQueues cfg st).nextSink = st.nextSink := by
  cases hd : cfg.deduplicate <;> simp [stripQueues, hd]

theorem stripQueues_closed (cfg : Config) (st : Collapser T) :
    (stripQueues cfg st).closed = st.closed := by
  cases hd : cfg.deduplicate <;> simp [stripQueues, hd]

theorem stripQueues_armed (cfg : Config) (st : Collapser T) :
    (stripQueues cfg st).timeoutArmed = false := by
  cases hd : cfg.deduplicate <;> simp [stripQueues, hd]

theorem stripQueues_keysEq (cfg : Config) (st : Collapser T)
    (h : st.dedupePromises.map Prod.fst = st.dedupeQueue) :
    (stripQueues cfg st).dedupePromises.map Prod.fst = (stripQueues cfg st).dedupeQueue := by
  cases hd : cfg.deduplicate <;> simp [stripQueues, hd, h]

theorem stripQueues_queueNodup (cfg : Config) (st : Collapser T)
    (h : st.dedupeQueue.Nodup) : (stripQueues cfg st).dedupeQueue.Nodup := by
  cases hd : cfg.deduplicate <;> simp [stripQueues, hd, h]

theorem queueSinks_stripQueues (cfg : Config) (st : Collapser T) :
    queueSinks cfg (stripQueues cfg st) = [] := by
  cases hd : cfg.deduplicate <;> simp [stripQueues, queueSinks, hd, groupSinks]

theorem effLen_stripQueues (cfg : Config) (st : Collapser T) :
    effLen cfg (stripQueues cfg st) = 0 := by
  cases hd : cfg.deduplicate <;> simp [stripQueues, effLen, hd]

theorem snapBatch_closed [DecidableEq T] (cfg : Config) (st : Collapser T)
    (h : st.closed = true) : snapBatch cfg st = (none, st) := by
  simp [snapBatch, h]

theorem snapBatch_open [DecidableEq T] (cfg : Config) (st : Collapser T)
    (h : st.closed = false) (hk : st.dedupePromises.map Prod.fst = st.dedupeQueue) :
    snapBatch cfg st = (some (mkBatch cfg st), stripQueues cfg st) := by
  cases hd : cfg.deduplicate with
  | true =>
    have hcap := captureGroups_self st.dedupePromises
    rw [hk] at hcap
    simp [snapBatch, h, hd, mkBatch, stripQueues, hcap]
  | false => simp [snapBatch, h, hd, mkBatch, stripQueues]

theorem batchSinks_mkBatch (cfg : Config) (st : Collapser T) :
    batchSinks (mkBatch cfg st) = queueSinks cfg st := by
  cases hd : cfg.deduplicate <;> simp [mkBatch, batchSinks, queueSinks, hd, groupSinks]

theorem batchItems_mkBatch_length (cfg : Config) (st : Collapser T) :
    (batchItems (mkBatch cfg st)).length = effLen cfg st := by
  cases hd : cfg.deduplicate <;> simp [mkBatch, batchItems, effLen, hd]

theorem rejectGroup_ids (g : List Nat) (e : JsErr T E) :
    (rejectGroup (S := S) g e).map Prod.fst = g := by
  simp [rejectGroup, List.map_map, Function.comp_def]

theorem resolveGroup_ids (g : List Nat) (v : Option S) :
    (resolveGroup (T := T) (E := E) g v).map Prod.fst = g := by
  simp [resolveGroup, List.map_map, Function.comp_def]

theorem settleBatch_error [DecidableEq T] (b : Batch T) (e : E) :
    settleBatch (S := S) b (.error e) =
      (batchSinks b).map (fun i => (i, .rejected (.batchErr e))) := by
  cases b with
  | dedupe items bp =>
    simp only [settleBatch, batchSinks, rejectGroup]
    rw [List.map_flatten]
    simp [List.map_map, Function.comp_def]
  | invoc entries => simp [settleBatch, batchSinks]

theorem distributeDedupe_sinks [DecidableEq T] (m : JsMap T S) (bp : List (T × List Nat)) :
    (↑((distributeDedupe (E := E) m bp).1.map Prod.fst) : Multiset Nat) +
      ↑(groupSinks (distributeDedupe (E := E) m bp).2) = ↑(groupSinks bp) := by
  induction m generalizing bp with
  | nil => simp [distributeDedupe]
  | cons p rest ih =>
    obtain ⟨x, v⟩ := p
    cases hg : mapGet bp x with
    | none => simpa [distributeDedupe, hg] using ih bp
    | some g =>
      simp only [distributeDedupe, hg, List.map_append, mcoe_append, resolveGroup_ids]
      rw [groupSinks_mapDelete hg, ← ih (mapDelete bp x)]
      abel

theorem settleBatch_ids [DecidableEq T] (b : Batch T) (res : Except E (JsMap T S)) :
    (↑((settleBatch b res).map Prod.fst) : Multiset Nat) = ↑(batchSinks b) := by
  cases res with
  | error e => simp [settleBatch_error, List.map_map, Function.comp_def]
  | ok m =>
    cases b with
    | invoc entries => simp [settleBatch, batchSinks, List.map_map, Function.comp_def]
    | dedupe items bp =>
      simp only [settleBatch, batchSinks, List.map_append, mcoe_append]
      have h2 : ((((distributeDedupe (E := E) m bp).2.map
          (fun p => rejectGroup (S := S) (E := E) p.2 (.missingResult p.1))).flatten).map Prod.fst) =
          groupSinks (distributeDedupe (E := E) m bp).2 := by
        rw [List.map_flatten]
        simp [List.map_map, Function.comp_def, rejectGroup, groupSinks]
      rw [h2]
      exact distributeDedupe_sinks m bp

end RequestCollapser

namespace RequestCollapser

variable {T S E : Type}

theorem distributeDedupe_mem_residue [DecidableEq T] {m : JsMap T S}
    {bp : List (T × List Nat)} {x : T} {g : List Nat}
    (hm : mapGet m x = none) (hb : (x, g) ∈ bp) :
    (x, g) ∈ (distributeDedupe (E := E) m bp).2 := by
  induction m generalizing bp with
  | nil => simpa [distributeDedupe] using hb
  | cons p rest ih =>
    obtain ⟨y, v⟩ := p
    have hyx : ¬y = x := by
      intro h
      subst h
      simp [mapGet] at hm
    simp only [mapGet, if_neg hyx] at hm
    cases hg : mapGet bp y with
    | none => simpa [distributeDedupe, hg] using ih hm hb
    | some gy =>
      simp only [distributeDedupe, hg]
      exact ih hm (mem_mapDelete_of_ne hb (fun h => hyx h.symm))

theorem distributeDedupe_mem_resolved [DecidableEq T] {m : JsMap T S}
    {bp : List (T × List Nat)} {x : T} {g : List Nat} {v : Option S}
    (hn : (bp.map Prod.fst).Nodup) (hb : (x, g) ∈ bp) (hm : mapGet m x = some v) :
    ∀ i ∈ g, ((i, .resolved v) : Settlement T S E) ∈ (distributeDedupe (E := E) m bp).1 := by
  induction m generalizing bp with
  | nil => simp [mapGet] at hm
  | cons p rest ih =>
    obtain ⟨y, w⟩ := p
    intro i hi
    by_cases hyx : y = x
    · subst hyx
      simp [mapGet] at hm
      subst hm
      have hget : mapGet bp y = some g := mapGet_of_mem_nodup hn hb
      simp only [distributeDedupe, hget, List.mem_append]
      exact Or.inl (by simp [resolveGroup, hi])
    · simp only [mapGet, if_neg hyx] at hm
      cases hg : mapGet bp y with
      | none => simpa [distributeDedupe, hg] using ih hn hb hm i hi
      | some gy =>
        simp only [distributeDedupe, hg, List.mem_append]
        have hb' : (x, g) ∈ mapDelete bp y :=
          mem_mapDelete_of_ne hb (fun h => hyx h.symm)
        have hn' : ((mapDelete bp y).map Prod.fst).Nodup :=
          hn.sublist (mapDelete_keys_sublist bp y)
        exact Or.inr (ih hn' hb' hm i hi)

theorem settleBatch_dedupe_mem_rejected [DecidableEq T] {m : JsMap T S}
    {bp : List (T × List Nat)} {x : T} {g : List Nat} (items : List T)
    (hm : mapGet m x = none) (hb : (x, g) ∈ bp) :
    ∀ i ∈ g, ((i, .rejected (.missingResult x)) : Settlement T S E) ∈
      settleBatch (.dedupe items bp) (.ok m) := by
  intro i hi
  simp only [settleBatch, List.mem_append]
  refine Or.inr (List.mem_flatten.mpr ⟨rejectGroup g (.missingResult x), ?_, ?_⟩)
  · exact List.mem_map_of_mem _ (distributeDedupe_mem_residue hm hb)
  · simp [rejectGroup, hi]

theorem closeRun_ids (cfg : Config) (st : Collapser T) :
    ((closeRun (S := S) (E := E) cfg st).1.map Prod.fst) = queueSinks cfg st := by
  cases hd : cfg.deduplicate with
  | true =>
    simp only [closeRun, hd, reduceIte, queueSinks]
    rw [List.map_flatten]
    simp [List.map_map, Function.comp_def, rejectGroup, groupSinks]
  | false => simp [closeRun, hd, queueSinks]

theorem closeRun_state (cfg : Config) (st : Collapser T)
    (hk : st.dedupePromises.map Prod.fst = st.dedupeQueue)
    (hnq : st.dedupeQueue.Nodup) :
    (closeRun (S := S) (E := E) cfg st).2.closed = true ∧
    (closeRun (S := S) (E := E) cfg st).2.timeoutArmed = false ∧
    (closeRun (S := S) (E := E) cfg st).2.nextSink = st.nextSink ∧
    queueSinks cfg (closeRun (S := S) (E := E) cfg st).2 = [] ∧
    (closeRun (S := S) (E := E) cfg st).2.dedupePromises.map Prod.fst =
      (closeRun (S := S) (E := E) cfg st).2.dedupeQueue ∧
    (closeRun (S := S) (E := E) cfg st).2.dedupeQueue.Nodup ∧
    effLen cfg (closeRun (S := S) (E := E) cfg st).2 = 0 := by
  cases hd : cfg.deduplicate <;>
    simp [closeRun, hd, queueSinks, groupSinks, effLen, hk, hnq]

end RequestCollapser

namespace RequestCollapser

variable {T S E : Type}

theorem pushItem_nextSink [DecidableEq T] (cfg : Config) (st : Collapser T) (x : T) :
    (pushItem cfg st x).nextSink = st.nextSink + 1 := by
  cases hd : cfg.deduplicate with
  | true =>
    cases hg : mapGet st.dedupePromises x <;> simp [pushItem, hd, hg]
  | false => simp [pushItem, hd]

theorem pushItem_closed [DecidableEq T] (cfg : Config) (st : Collapser T) (x : T) :
    (pushItem cfg st x).closed = st.closed := by
  cases hd : cfg.deduplicate with
  | true =>
    cases hg : mapGet st.dedupePromises x <;> simp [pushItem, hd, hg]
  | false => simp [pushItem, hd]

theorem pushItem_armed [DecidableEq T] (cfg : Config) (st : Collapser T) (x : T) :
    (pushItem cfg st x).timeoutArmed = st.timeoutArmed := by
  cases hd : cfg.deduplicate with
  | true =>
    cases hg : mapGet st.dedupePromises x <;> simp [pushItem, hd, hg]
  | false => simp [pushItem, hd]

theorem pushItem_keysEq [DecidableEq T] (cfg : Config) (st : Collapser T) (x : T)
    (hk : st.dedupePromises.map Prod.fst = st.dedupeQueue) :
    (pushItem cfg st x).dedupePromises.map Prod.fst = (pushItem cfg st x).dedupeQueue := by
  cases hd : cfg.deduplicate with
  | true =>
    cases hg : mapGet st.dedupePromises x with
    | none => simp [pushItem, hd, hg, hk]
    | some g => simp [pushItem, hd, hg, mapSet_keys, hk]
  | false => simp [pushItem, hd, hk]

theorem pushItem_queueNodup [DecidableEq T] (cfg : Config) (st : Collapser T) (x : T)
    (hk : st.dedupePromises.map Prod.fst = st.dedupeQueue)
    (hn : st.dedupeQueue.Nodup) : (pushItem cfg st x).dedupeQueue.Nodup := by
  cases hd : cfg.deduplicate with
  | true =>
    cases hg : mapGet st.dedupePromises x with
    | none =>
      have hx : x ∉ st.dedupeQueue := by
        rw [← hk]
        exact (mapGet_eq_none_iff st.dedupePromises x).mp hg
      simp [pushItem, hd, hg, List.nodup_append, hn, hx]
    | some g => simp [pushItem, hd, hg, hn]
  | false => simp [pushItem, hd, hn]

theorem pushItem_queueSinks [DecidableEq T] (cfg : Config) (st : Collapser T) (x : T) :
    (↑(queueSinks cfg (pushItem cfg st x)) : Multiset Nat) =
      ↑(queueSinks cfg st) + {st.nextSink} := by
  cases hd : cfg.deduplicate with
  | true =>
    cases hg : mapGet st.dedupePromises x with
    | none =>
      simp only [pushItem, hd, reduceIte, hg, queueSinks]
      simp [groupSinks, mcoe_append, mcoe_single]
    | some g =>
      simp only [pushItem, hd, reduceIte, hg, queueSinks]
      exact groupSinks_mapSet hg st.nextSink
  | false =>
    simp only [pushItem, hd, Bool.false_eq_true, reduceIte, queueSinks]
    simp [mcoe_append, mcoe_single]

theorem pushItem_effLen [DecidableEq T] (cfg : Config) (st : Collapser T) (x : T) :
    effLen cfg st ≤ effLen cfg (pushItem cfg st x) ∧
      effLen cfg (pushItem cfg st x) ≤ effLen cfg st + 1 := by
  cases hd : cfg.deduplicate with
  | true =>
    cases hg : mapGet st.dedupePromises x <;> simp [pushItem, effLen, hd, hg]
  | false => simp [pushItem, effLen, hd]

theorem triggerCheck_cases [DecidableEq T] (cfg : Config) (st : Collapser T) :
    (triggerCheck cfg st = snapBatch cfg { st with timeoutArmed := false } ∧
      ∃ m, cfg.maxQueueLength = some m ∧ m ≤ effLen cfg st) ∨
    ((∃ a, triggerCheck cfg st = (none, { st with timeoutArmed := a })) ∧
      ∀ m, cfg.maxQueueLength = some m → effLen cfg st < m) := by
  cases hq : cfg.maxQueueLength with
  | some m =>
    by_cases hle : m ≤ effLen cfg st
    · exact Or.inl ⟨by simp [triggerCheck, hq, hle], m, rfl, hle⟩
    · refine Or.inr ⟨?_, ?_⟩
      · by_cases ha : !st.timeoutArmed || cfg.debounce
        · exact ⟨true, by simp [triggerCheck, hq, hle, ha]⟩
        · exact ⟨st.timeoutArmed, by simp [triggerCheck, hq, hle, ha]⟩
      · intro m' hm'
        injection hm' with h
        exact h ▸ Nat.lt_of_not_le hle
  | none =>
    refine Or.inr ⟨?_, by simp [hq]⟩
    by_cases ha : !st.timeoutArmed || cfg.debounce
    · exact ⟨true, by simp [triggerCheck, hq, ha]⟩
    · exact ⟨st.timeoutArmed, by simp [triggerCheck, hq, ha]⟩

theorem inflightSinks_append (l₁ l₂ : List (Batch T)) :
    inflightSinks (l₁ ++ l₂) = inflightSinks l₁ ++ inflightSinks l₂ := by
  induction l₁ with
  | nil => simp [inflightSinks]
  | cons b rest ih => simp [inflightSinks, ih]

theorem inflightSinks_getElem {l : List (Batch T)} {i : Nat} {b : Batch T}
    (h : l[i]? = some b) :
    (↑(inflightSinks l) : Multiset Nat) =
      ↑(batchSinks b) + ↑(inflightSinks (l.eraseIdx i)) := by
  induction l generalizing i with
  | nil => simp at h
  | cons hd tl ih =>
    cases i with
    | zero =>
      simp only [List.getElem?_cons_zero, Option.some.injEq] at h
      subst h
      simp only [inflightSinks, List.eraseIdx_cons_zero, mcoe_append]
    | succ n =>
      simp only [List.getElem?_cons_succ] at h
      simp only [inflightSinks, List.eraseIdx_cons_succ, mcoe_append]
      rw [ih h]
      abel

end RequestCollapser

namespace RequestCollapser

variable {T S E : Type}

theorem mcoe_nil : (↑([] : List Nat) : Multiset Nat) = 0 := rfl

theorem nodup_append_single {l : List Nat} {n : Nat} (h : l.Nodup) (hn : n ∉ l) :
    (l ++ [n]).Nodup := by
  simp [List.nodup_append, h, hn]

theorem queueSinks_setArmed (cfg : Config) (st : Collapser T) (a : Bool) :
    queueSinks cfg { st with timeoutArmed := a } = queueSinks cfg st := by
  cases hd : cfg.deduplicate <;> simp [queueSinks, hd]

theorem effLen_setArmed (cfg : Config) (st : Collapser T) (a : Bool) :
    effLen cfg { st with timeoutArmed := a } = effLen cfg st := by
  cases hd : cfg.deduplicate <;> simp [effLen, hd]

theorem mkBatch_setArmed (cfg : Config) (st : Collapser T) (a : Bool) :
    mkBatch cfg { st with timeoutArmed := a } = mkBatch cfg st := by
  cases hd : cfg.deduplicate <;> simp [mkBatch, hd]

theorem stripQueues_setArmed (cfg : Config) (st : Collapser T) (a : Bool) :
    stripQueues cfg { st with timeoutArmed := a } = stripQueues cfg st := by
  cases hd : cfg.deduplicate <;> simp [stripQueues, hd]

theorem flushSnap_closed [DecidableEq T] (cfg : Config) (st : Collapser T)
    (hc : st.closed = true) : flushSnap cfg st = (none, st) := by
  simp [flushSnap, hc]

theorem flushSnap_pos [DecidableEq T] (cfg : Config) (st : Collapser T)
    (hc : st.closed = false) (hl : 0 < effLen cfg st)
    (hk : st.dedupePromises.map Prod.fst = st.dedupeQueue) :
    flushSnap cfg st = (some (mkBatch cfg st), stripQueues cfg st) := by
  have h1 : 0 < effLen cfg ({ st with timeoutArmed := false } : Collapser T) := by
    rw [effLen_setArmed]
    exact hl
  simp only [flushSnap]
  rw [if_neg (by simp [hc])]
  rw [if_pos h1]
  rw [snapBatch_open cfg { st with timeoutArmed := false } (by simpa using hc)
    (by simpa using hk)]
  rw [mkBatch_setArmed, stripQueues_setArmed]

theorem flushSnap_empty [DecidableEq T] (cfg : Config) (st : Collapser T)
    (hc : st.closed = false) (hl : effLen cfg st = 0) :
    flushSnap cfg st = (none, { st with timeoutArmed := false }) := by
  have h1 : ¬0 < effLen cfg ({ st with timeoutArmed := false } : Collapser T) := by
    rw [effLen_setArmed, hl]
    omega
  simp only [flushSnap]
  rw [if_neg (by simp [hc])]
  rw [if_neg h1]

theorem goodRun_init (cfg : Config) : GoodRun cfg (initRun (T := T) (S := S) (E := E)) := by
  refine ⟨rfl, List.nodup_nil, ?_, ?_, ?_, List.nodup_nil, ?_, ?_⟩
  · intro i hi
    cases hd : cfg.deduplicate <;>
      simp [initRun, initCollapser, queueSinks, groupSinks, hd] at hi
  · intro i hi
    simp [initRun, inflightSinks] at hi
  · intro i hi
    simp [initRun, evIds] at hi
  · cases hd : cfg.deduplicate <;>
      simp [initRun, initCollapser, queueSinks, groupSinks, inflightSinks, evIds, hd, mcoe_nil]
  · intro m hm h1
    cases hd : cfg.deduplicate <;> simp [initRun, initCollapser, effLen, hd] <;> omega

theorem goodRun_fresh {cfg : Config} {r : Run T S E} (h : GoodRun cfg r) :
    r.col.nextSink ∉ r.created := by
  intro hmem
  have hms : r.col.nextSink ∈ (↑r.created : Multiset Nat) := by simpa using hmem
  rw [h.part] at hms
  rcases Multiset.mem_add.mp hms with hin | hin
  · rcases Multiset.mem_add.mp hin with hin2 | hin2
    · exact absurd (h.evBound _ (by simpa using hin2)) (Nat.lt_irrefl _)
    · exact absurd (h.queueBound _ (by simpa using hin2)) (Nat.lt_irrefl _)
  · exact absurd (h.flightBound _ (by simpa using hin)) (Nat.lt_irrefl _)

theorem goodRun_step [DecidableEq T] {cfg : Config} {r : Run T S E} (h : GoodRun cfg r) :
    ∀ op : Op T S E, GoodRun cfg (step cfg r op)
  | .proc x => by
    by_cases hc : r.col.closed
    · have heq : step cfg r (.proc x) = r := by
        simp [step, processRun, hc]
      rw [heq]
      exact h
    · rw [Bool.not_eq_true] at hc
      simp only [step, processRun, hc, Bool.false_eq_true, reduceIte]
      have hns : (pushItem cfg r.col x).nextSink = r.col.nextSink + 1 :=
        pushItem_nextSink cfg r.col x
      have hqs : (↑(queueSinks cfg (pushItem cfg r.col x)) : Multiset Nat) =
          ↑(queueSinks cfg r.col) + {r.col.nextSink} := pushItem_queueSinks cfg r.col x
      have hks : (pushItem cfg r.col x).dedupePromises.map Prod.fst =
          (pushItem cfg r.col x).dedupeQueue := pushItem_keysEq cfg r.col x h.keysEq
      have hcreated : (r.created ++ [r.col.nextSink]).Nodup :=
        nodup_append_single h.createdNodup (goodRun_fresh h)
      rcases triggerCheck_cases cfg (pushItem cfg r.col x) with ⟨ht, m, hm, hle⟩ | ⟨⟨a, ht⟩, hlt⟩
      · -- hitting maxQueueLength dispatches the snapshot synchronously
        have hop : ({ pushItem cfg r.col x with timeoutArmed := false } :
            Collapser T).closed = false := by
          simpa using (pushItem_closed cfg r.col x).trans hc
        have hsnap := snapBatch_open cfg
          { pushItem cfg r.col x with timeoutArmed := false } hop (by simpa using hks)
        rw [ht, hsnap]
        set st1 : Collapser T := { pushItem cfg r.col x with timeoutArmed := false } with hst1
        have hns1 : st1.nextSink = r.col.nextSink + 1 := by
          rw [hst1]
          simpa using hns
        have hqs1 : (↑(queueSinks cfg st1) : Multiset Nat) =
            ↑(queueSinks cfg r.col) + {r.col.nextSink} := by
          rw [hst1, queueSinks_setArmed]
          exact hqs
        refine ⟨?_, ?_, ?_, ?_, ?_, ?_, ?_, ?_⟩
        · exact stripQueues_keysEq cfg st1 (by simpa [hst1] using hks)
        · exact stripQueues_queueNodup cfg st1
            (by simpa [hst1] using pushItem_queueNodup cfg r.col x h.keysEq h.queueNodup)
        · rw [queueSinks_stripQueues]
          intro i hi
          simp at hi
        · intro i hi
          rw [stripQueues_nextSink, hns1]
          simp only [Option.toList_some, inflightSinks_append, inflightSinks,
            List.append_nil, batchSinks_mkBatch] at hi
          rcases List.mem_append.mp hi with hi2 | hi2
          · exact Nat.lt_succ_of_lt (h.flightBound i hi2)
          · have hms : (i : Nat) ∈ (↑(queueSinks cfg st1) : Multiset Nat) := by
              simpa using hi2
            rw [hqs1] at hms
            rcases Multiset.mem_add.mp hms with hin | hin
            · exact Nat.lt_succ_of_lt (h.queueBound i (by simpa using hin))
            · simp at hin
              omega
        · intro i hi
          rw [stripQueues_nextSink, hns1]
          exact Nat.lt_succ_of_lt (h.evBound i hi)
        · exact hcreated
        · simp only [evIds, queueSinks_stripQueues, Option.toList_some, inflightSinks_append,
            inflightSinks, List.append_nil, batchSinks_mkBatch, mcoe_append, mcoe_single,
            mcoe_nil]
          rw [h.part, hqs1]
          simp only [evIds]
          abel
        · intro m' hm' h1
          rw [effLen_stripQueues]
          omega
      · -- below the limit: the timer may only be (re)armed
        rw [ht]
        have hns2 : ({ pushItem cfg r.col x with timeoutArmed := a } :
            Collapser T).nextSink = r.col.nextSink + 1 := by
          simpa using hns
        refine ⟨?_, ?_, ?_, ?_, ?_, ?_, ?_, ?_⟩
        · simpa using hks
        · simpa using pushItem_queueNodup cfg r.col x h.keysEq h.queueNodup
        · intro i hi
          rw [hns2]
          rw [queueSinks_setArmed] at hi
          have hms : (i : Nat) ∈ (↑(queueSinks cfg (pushItem cfg r.col x)) : Multiset Nat) := by
            simpa using hi
          rw [hqs] at hms
          rcases Multiset.mem_add.mp hms with hin | hin
          · exact Nat.lt_succ_of_lt (h.queueBound i (by simpa using hin))
          · simp at hin
            omega
        · intro i hi
          rw [hns2]
          simp only [Option.toList_none, List.append_nil] at hi
          exact Nat.lt_succ_of_lt (h.flightBound i hi)
        · intro i hi
          rw [hns2]
          exact Nat.lt_succ_of_lt (h.evBound i hi)
        · exact hcreated
        · simp only [evIds, queueSinks_setArmed, Option.toList_none, List.append_nil,
            mcoe_append, mcoe_single]
          rw [h.part, hqs]
          simp only [evIds]
          abel
        · intro m' hm' h1
          rw [effLen_setArmed]
          exact hlt m' hm'
  | .timerFire => by
    by_cases ha : r.col.timeoutArmed
    · by_cases hc : r.col.closed
      · have heq : step cfg r Op.timerFire = r := by
          simp [step, ha, snapBatch_closed cfg r.col hc]
        rw [heq]
        exact h
      · rw [Bool.not_eq_true] at hc
        simp only [step, ha, reduceIte]
        rw [snapBatch_open cfg r.col hc h.keysEq]
        refine ⟨stripQueues_keysEq cfg r.col h.keysEq,
          stripQueues_queueNodup cfg r.col h.queueNodup, ?_, ?_, ?_, h.createdNodup, ?_, ?_⟩
        · rw [queueSinks_stripQueues]
          intro i hi
          simp at hi
        · intro i hi
          rw [stripQueues_nextSink]
          simp only [Option.toList_some, inflightSinks_append, inflightSinks,
            List.append_nil, batchSinks_mkBatch] at hi
          rcases List.mem_append.mp hi with hi2 | hi2
          · exact h.flightBound i hi2
          · exact h.queueBound i hi2
        · intro i hi
          rw [stripQueues_nextSink]
          exact h.evBound i hi
        · simp only [evIds, queueSinks_stripQueues, Option.toList_some, inflightSinks_append,
            inflightSinks, List.append_nil, batchSinks_mkBatch, mcoe_append, mcoe_nil]
          rw [h.part]
          simp only [evIds]
          abel
        · intro m' hm' h1
          rw [effLen_stripQueues]
          omega
    · have heq : step cfg r Op.timerFire = r := by
        simp [step, ha]
      rw [heq]
      exact h
  | .flushCall => by
    by_cases hc : r.col.closed
    · have heq : step cfg r Op.flushCall = r := by
        simp [step, flushSnap_closed cfg r.col hc]
      rw [heq]
      exact h
    · rw [Bool.not_eq_true] at hc
      by_cases hlen : 0 < effLen cfg r.col
      · simp only [step, flushSnap_pos cfg r.col hc hlen h.keysEq]
        refine ⟨stripQueues_keysEq cfg _ h.keysEq,
          stripQueues_queueNodup cfg _ h.queueNodup, ?_, ?_, ?_,
          h.createdNodup, ?_, ?_⟩
        · rw [queueSinks_stripQueues]
          intro i hi
          simp at hi
        · intro i hi
          rw [stripQueues_nextSink]
          simp only [Option.toList_some, inflightSinks_append, inflightSinks,
            List.append_nil, batchSinks_mkBatch] at hi
          rcases List.mem_append.mp hi with hi2 | hi2
          · exact h.flightBound i hi2
          · exact h.queueBound i hi2
        · intro i hi
          rw [stripQueues_nextSink]
          exact h.evBound i hi
        · simp only [evIds, queueSinks_stripQueues, Option.toList_some, inflightSinks_append,
            inflightSinks, List.append_nil, batchSinks_mkBatch, mcoe_append, mcoe_nil]
          rw [h.part]
          simp only [evIds]
          abel
        · intro m' hm' h1
          rw [effLen_stripQueues]
          omega
      · have hl0 : effLen cfg r.col = 0 := by omega
        simp only [step, flushSnap_empty cfg r.col hc hl0]
        refine ⟨by simpa using h.keysEq, by simpa using h.queueNodup, ?_, ?_, ?_,
          h.createdNodup, ?_, ?_⟩
        · intro i hi
          rw [queueSinks_setArmed] at hi
          exact h.queueBound i hi
        · intro i hi
          simp only [Option.toList_none, List.append_nil] at hi
          exact h.flightBound i hi
        · exact h.evBound
        · simp only [evIds, queueSinks_setArmed, Option.toList_none, List.append_nil]
          exact h.part
        · intro m' hm' h1
          rw [effLen_setArmed]
          exact h.lenBound m' hm' h1
  | .closeCall => by
    obtain ⟨hcl, har, hns, hqs, hke, hnq, hel⟩ :=
      closeRun_state (S := S) (E := E) cfg r.col h.keysEq h.queueNodup
    simp only [step]
    refine ⟨hke, hnq, ?_, ?_, ?_, h.createdNodup, ?_, ?_⟩
    · rw [hqs]
      intro i hi
      simp at hi
    · intro i hi
      rw [hns]
      exact h.flightBound i hi
    · intro i hi
      rw [hns]
      simp only [evIds, List.map_append, closeRun_ids] at hi
      rcases List.mem_append.mp hi with hi2 | hi2
      · exact h.evBound i (by simpa [evIds] using hi2)
      · exact h.queueBound i hi2
    · rw [hqs]
      simp only [evIds, List.map_append, closeRun_ids, mcoe_append, mcoe_nil]
      rw [h.part]
      simp only [evIds]
      abel
    · intro m' hm' h1
      rw [hel]
      omega
  | .settle i res => by
    cases hb : r.inflight[i]? with
    | none =>
      simp only [step, hb]
      exact h
    | some b =>
      simp only [step, hb]
      have hflight := inflightSinks_getElem hb
      have hbmem : ∀ j ∈ batchSinks b, j ∈ inflightSinks r.inflight := by
        intro j hj
        have hms : (j : Nat) ∈ (↑(inflightSinks r.inflight) : Multiset Nat) := by
          rw [hflight]
          exact Multiset.mem_add.mpr (Or.inl (by simpa using hj))
        simpa using hms
      refine ⟨h.keysEq, h.queueNodup, h.queueBound, ?_, ?_, h.createdNodup, ?_, h.lenBound⟩
      · intro j hj
        refine h.flightBound j ?_
        have hms : (j : Nat) ∈ (↑(inflightSinks (r.inflight.eraseIdx i)) : Multiset Nat) := by
          simpa using hj
        have h2 : (j : Nat) ∈ (↑(inflightSinks r.inflight) : Multiset Nat) := by
          rw [hflight]
          exact Multiset.mem_add.mpr (Or.inr hms)
        simpa using h2
      · intro j hj
        simp only [evIds, List.map_append] at hj
        rcases List.mem_append.mp hj with hj2 | hj2
        · exact h.evBound j (by simpa [evIds] using hj2)
        · have hms : (j : Nat) ∈ (↑((settleBatch b res).map Prod.fst) : Multiset Nat) := by
            simpa using hj2
          rw [settleBatch_ids] at hms
          exact h.flightBound j (hbmem j (by simpa using hms))
      · simp only [evIds, List.map_append, mcoe_append]
        rw [h.part, hflight, settleBatch_ids b res]
        simp only [evIds]
        abel
end RequestCollapser

namespace RequestCollapser

variable {T S E : Type}

theorem goodRun_foldl [DecidableEq T] (cfg : Config) (ops : List (Op T S E)) :
    ∀ r : Run T S E, GoodRun cfg r → GoodRun cfg (ops.foldl (step cfg) r) := by
  induction ops with
  | nil => exact fun r h => h
  | cons op rest ih => exact fun r h => ih (step cfg r op) (goodRun_step h op)

theorem goodRun_runOps [DecidableEq T] (cfg : Config) (ops : List (Op T S E)) :
    GoodRun cfg (runOps cfg ops) :=
  goodRun_foldl cfg ops initRun (goodRun_init cfg)

/-- `process` on an open state with no `maxQueueLength`: a fresh sink, no
synchronous dispatch, and the timer ends up armed. -/
theorem processRun_open_noMax [DecidableEq T] (cfg : Config) (st : Collapser T) (x : T)
    (hc : st.closed = false) (hq : cfg.maxQueueLength = none) :
    processRun (E := E) cfg st x =
      (.ok st.nextSink, none, { pushItem cfg st x with timeoutArmed := true }) := by
  simp only [processRun, hc, Bool.false_eq_true, reduceIte]
  cases hb : (pushItem cfg st x).timeoutArmed with
  | false => simp [triggerCheck, hq, hb]
  | true =>
    by_cases hd : cfg.debounce
    · simp [triggerCheck, hq, hb, hd]
    · simp only [triggerCheck, hq, hb, hd, Bool.not_true, Bool.false_or, Bool.false_eq_true,
        reduceIte]
      rw [show ({ pushItem cfg st x with timeoutArmed := true } : Collapser T) =
        pushItem cfg st x from by rw [← hb]]

theorem batchItems_mkBatch (cfg : Config) (st : Collapser T) :
    batchItems (mkBatch cfg st) =
      if cfg.deduplicate then st.dedupeQueue else st.invocationQueue.map (·.item) := by
  cases hd : cfg.deduplicate <;> simp [mkBatch, batchItems, hd]

theorem entriesFrom_items (n : Nat) (xs : List T) :
    (entriesFrom n xs).map (·.item) = xs := by
  induction xs generalizing n with
  | nil => simp [entriesFrom]
  | cons x rest ih => simp [entriesFrom, ih]

theorem pushItem_dedupeQueue [DecidableEq T] (cfg : Config) (st : Collapser T) (x : T)
    (hdd : cfg.deduplicate = true)
    (hk : st.dedupePromises.map Prod.fst = st.dedupeQueue) :
    (pushItem cfg st x).dedupeQueue =
      if x ∈ st.dedupeQueue then st.dedupeQueue else st.dedupeQueue ++ [x] := by
  by_cases hx : x ∈ st.dedupeQueue
  · have hg : mapGet st.dedupePromises x ≠ none := by
      intro hnone
      rw [mapGet_eq_none_iff, hk] at hnone
      exact hnone hx
    cases hgv : mapGet st.dedupePromises x with
    | none => exact absurd hgv hg
    | some g => simp [pushItem, hdd, hgv, hx]
  · have hg : mapGet st.dedupePromises x = none := by
      rw [mapGet_eq_none_iff, hk]
      simpa using hx
    simp [pushItem, hdd, hg, hx]

theorem pushItem_invocQueue [DecidableEq T] (cfg : Config) (st : Collapser T) (x : T)
    (hdd : cfg.deduplicate = false) :
    (pushItem cfg st x).invocationQueue =
      st.invocationQueue ++ [⟨st.nextSink, x⟩] := by
  simp [pushItem, hdd]

/-- What a sequence of `process` calls does to an open collapser when no
`maxQueueLength` is configured. -/
theorem submitAll_state [DecidableEq T] (cfg : Config) (hq : cfg.maxQueueLength = none) :
    ∀ (xs : List T) (st : Collapser T), st.closed = false →
      st.dedupePromises.map Prod.fst = st.dedupeQueue →
      (submitAll cfg st xs).1.closed = false ∧
      (submitAll cfg st xs).1.nextSink = st.nextSink + xs.length ∧
      (submitAll cfg st xs).2 = List.range' st.nextSink xs.length ∧
      (submitAll cfg st xs).1.dedupePromises.map Prod.fst =
        (submitAll cfg st xs).1.dedupeQueue ∧
      (cfg.deduplicate = true →
        (submitAll cfg st xs).1.dedupeQueue = firstSeenFrom st.dedupeQueue xs) ∧
      (cfg.deduplicate = false →
        (submitAll cfg st xs).1.invocationQueue =
          st.invocationQueue ++ entriesFrom st.nextSink xs) ∧
      (↑(queueSinks cfg (submitAll cfg st xs).1) : Multiset Nat) =
        ↑(queueSinks cfg st) + ↑((submitAll cfg st xs).2) ∧
      (xs ≠ [] → (submitAll cfg st xs).1.timeoutArmed = true) := by
  intro xs
  induction xs with
  | nil =>
    intro st hc hk
    refine ⟨hc, by simp [submitAll], by simp [submitAll, List.range'], by simp [submitAll, hk],
      fun _ => by simp [submitAll, firstSeenFrom], by simp [submitAll, entriesFrom],
      by simp [submitAll, mcoe_nil], fun hne => absurd rfl hne⟩
  | cons x rest ih =>
    intro st hc hk
    have hpr := processRun_open_noMax (E := Unit) cfg st x hc hq
    have hsub : submitAll cfg st (x :: rest) =
        ((submitAll cfg { pushItem cfg st x with timeoutArmed := true } rest).1,
          st.nextSink :: (submitAll cfg { pushItem cfg st x with timeoutArmed := true } rest).2) := by
      simp [submitAll, hpr]
    set st1 : Collapser T := { pushItem cfg st x with timeoutArmed := true } with hst1
    have hc1 : st1.closed = false := by
      rw [hst1]
      simpa using (pushItem_closed cfg st x).trans hc
    have hk1 : st1.dedupePromises.map Prod.fst = st1.dedupeQueue := by
      rw [hst1]
      simpa using pushItem_keysEq cfg st x hk
    obtain ⟨ih1, ih2, ih3, ih4, ih5, ih6, ih7, ih8⟩ := ih st1 hc1 hk1
    have hns1 : st1.nextSink = st.nextSink + 1 := by
      rw [hst1]
      simpa using pushItem_nextSink cfg st x
    refine ⟨by rw [hsub]; exact ih1, ?_, ?_, by rw [hsub]; exact ih4, ?_, ?_, ?_, ?_⟩
    · rw [hsub]
      simp only []
      rw [ih2, hns1]
      simp [List.length_cons]
      omega
    · rw [hsub]
      simp only []
      rw [ih3, hns1]
      simp [List.range'_succ]
    · intro hdd
      rw [hsub]
      simp only []
      rw [ih5 hdd]
      have : st1.dedupeQueue = if x ∈ st.dedupeQueue then st.dedupeQueue
          else st.dedupeQueue ++ [x] := by
        rw [hst1]
        simpa using pushItem_dedupeQueue cfg st x hdd hk
      rw [this]
      by_cases hx : x ∈ st.dedupeQueue <;> simp [firstSeenFrom, hx]
    · intro hdd
      rw [hsub]
      simp only []
      rw [ih6 hdd]
      have : st1.invocationQueue = st.invocationQueue ++ [⟨st.nextSink, x⟩] := by
        rw [hst1]
        simpa using pushItem_invocQueue cfg st x hdd
      rw [this, hns1]
      simp [entriesFrom]
    · rw [hsub]
      simp only []
      have hq1 : (↑(queueSinks cfg st1) : Multiset Nat) =
          ↑(queueSinks cfg st) + {st.nextSink} := by
        rw [hst1, queueSinks_setArmed]
        exact pushItem_queueSinks cfg st x
      rw [ih7, hq1]
      have : (↑(st.nextSink :: (submitAll cfg st1 rest).2) : Multiset Nat) =
          {st.nextSink} + ↑((submitAll cfg st1 rest).2) := by
        rw [show st.nextSink :: (submitAll cfg st1 rest).2 =
          [st.nextSink] ++ (submitAll cfg st1 rest).2 from rfl, mcoe_append, mcoe_single]
      rw [this]
      abel
    · intro hne
      rw [hsub]
      simp only []
      cases hrest : rest with
      | nil => simp [submitAll, hst1]
      | cons y ys =>
        rw [← hrest]
        exact ih8 (by simp [hrest])

end RequestCollapser

namespace RequestCollapser

variable {T S E : Type}

/-- A sequence of `process` operations at run level is `submitAll` on the
collapser state: nothing is dispatched and no event is emitted. -/
theorem runProcs [DecidableEq T] (cfg : Config) (hq : cfg.maxQueueLength = none) :
    ∀ (xs : List T) (r : Run T S E), r.col.closed = false →
      (xs.map Op.proc).foldl (step cfg) r =
        { col := (submitAll cfg r.col xs).1,
          inflight := r.inflight,
          events := r.events,
          created := r.created ++ (submitAll cfg r.col xs).2 } := by
  intro xs
  induction xs with
  | nil =>
    intro r hc
    simp [submitAll]
  | cons x rest ih =>
    intro r hc
    have hprE := processRun_open_noMax (E := E) cfg r.col x hc hq
    have hstep : step cfg r (Op.proc x) =
        { col := { pushItem cfg r.col x with timeoutArmed := true },
          inflight := r.inflight, events := r.events,
          created := r.created ++ [r.col.nextSink] } := by
      simp [step, hprE]
    simp only [List.map_cons, List.foldl_cons, hstep]
    rw [ih _ (by simpa using (pushItem_closed cfg r.col x).trans hc)]
    have hprU := processRun_open_noMax (E := Unit) cfg r.col x hc hq
    simp [submitAll, hprU]

theorem lookupOutcome_present [DecidableEq T] {m : JsMap T S} {x : T} {v : Option S}
    (h : mapGet m x = some v) :
    lookupOutcome (E := E) m x = .resolved v := by
  cases v with
  | none => simp [lookupOutcome, h]
  | some w => simp [lookupOutcome, h]

theorem lookupOutcome_absent [DecidableEq T] {m : JsMap T S} {x : T}
    (h : mapGet m x = none) :
    lookupOutcome (E := E) m x = .rejected (.missingResult x) := by
  simp [lookupOutcome, h]

end RequestCollapser

namespace RequestCollapser

variable {T S E : Type}

/-- C2: for every collapser on which `close()` has been called, a subsequent
`process(item)` call rejects with the closed error
(`Error('Request collapser was closed')`), dispatches no batch (so the batch
function is never invoked for it), and leaves the collapser state — in
particular the queue — unchanged. -/
theorem c2_process_after_close [DecidableEq T] (cfg : Config) (st : Collapser T) (x : T)
    (h : st.closed = true) :
    processRun (E := E) cfg st x = (.error .closed, none, st) := by
  simp [processRun, h]

theorem c2_witness :
    processRun (E := Unit) {} ({ initCollapser with closed := true } : Collapser Nat) 5 =
      (.error .closed, none, { initCollapser with closed := true }) :=
  c2_process_after_close {} { initCollapser with closed := true } 5 rfl

/-- C9: in non-deduplicate (invocation) mode, an item whose key is present
in the result map with value `undefined` is resolved with `undefined`
(`resolved none`), not treated as missing; only an item with no entry at all
is rejected with the missing-result error. -/
theorem c9_undefined_value_resolves [DecidableEq T] (entries : List (QueueEntry T))
    (m : JsMap T S) (en : QueueEntry T) (he : en ∈ entries) :
    (mapGet m en.item = some none →
      ((en.id, .resolved none) : Settlement T S E) ∈
        settleBatch (.invoc entries) (.ok m)) ∧
    (mapGet m en.item = none →
      ((en.id, .rejected (.missingResult en.item)) : Settlement T S E) ∈
        settleBatch (.invoc entries) (.ok m)) := by
  constructor
  · intro hp
    simp only [settleBatch]
    exact List.mem_map.mpr ⟨en, he, by rw [lookupOutcome_present hp]⟩
  · intro ha
    simp only [settleBatch]
    exact List.mem_map.mpr ⟨en, he, by rw [lookupOutcome_absent ha]⟩

theorem c9_witness :
    (mapGet ([(1, none)] : JsMap Nat Nat) 1 = some none →
      ((7, .resolved none) : Settlement Nat Nat Unit) ∈
        settleBatch (.invoc [⟨7, 1⟩]) (.ok [(1, none)])) ∧
    (mapGet ([(1, none)] : JsMap Nat Nat) 1 = none →
      ((7, .rejected (.missingResult 1)) : Settlement Nat Nat Unit) ∈
        settleBatch (.invoc [⟨7, 1⟩]) (.ok [(1, none)])) :=
  c9_undefined_value_resolves [⟨7, 1⟩] ([(1, none)] : JsMap Nat Nat) ⟨7, 1⟩ (by simp)

/-- C6: under the keyed (map) result policy, in both modes: an item present
as a key in the returned map has every sink of its group (its entry in
non-deduplicate mode) resolved with the mapped value, and an item absent
from the map has its request(s) rejected with the missing-result error
naming that item, independently of the other items of the batch. -/
theorem c6_keyed_policy [DecidableEq T] (m : JsMap T S) (bp : List (T × List Nat))
    (items : List T) (entries : List (QueueEntry T))
    (hn : (bp.map Prod.fst).Nodup) :
    (∀ x g v, (x, g) ∈ bp → mapGet m x = some v →
      ∀ i ∈ g, ((i, .resolved v) : Settlement T S E) ∈
        settleBatch (.dedupe items bp) (.ok m)) ∧
    (∀ x g, (x, g) ∈ bp → mapGet m x = none →
      ∀ i ∈ g, ((i, .rejected (.missingResult x)) : Settlement T S E) ∈
        settleBatch (.dedupe items bp) (.ok m)) ∧
    (∀ en ∈ entries, ∀ v, mapGet m en.item = some v →
      ((en.id, .resolved v) : Settlement T S E) ∈ settleBatch (.invoc entries) (.ok m)) ∧
    (∀ en ∈ entries, mapGet m en.item = none →
      ((en.id, .rejected (.missingResult en.item)) : Settlement T S E) ∈
        settleBatch (.invoc entries) (.ok m)) := by
  refine ⟨?_, ?_, ?_, ?_⟩
  · intro x g v hb hm i hi
    simp only [settleBatch, List.mem_append]
    exact Or.inl (distributeDedupe_mem_resolved hn hb hm i hi)
  · intro x g hb hm i hi
    exact settleBatch_dedupe_mem_rejected items hm hb i hi
  · intro en he v hm
    simp only [settleBatch]
    exact List.mem_map.mpr ⟨en, he, by rw [lookupOutcome_present hm]⟩
  · intro en he hm
    simp only [settleBatch]
    exact List.mem_map.mpr ⟨en, he, by rw [lookupOutcome_absent hm]⟩

theorem c6_witness :
    (∀ x g v, (x, g) ∈ [((1 : Nat), [0, 1])] → mapGet [(1, some 5)] x = some v →
      ∀ i ∈ g, ((i, .resolved v) : Settlement Nat Nat Unit) ∈
        settleBatch (.dedupe [1] [(1, [0, 1])]) (.ok [(1, some 5)])) ∧
    (∀ x g, (x, g) ∈ [((1 : Nat), [0, 1])] → mapGet [(1, some 5)] x = none →
      ∀ i ∈ g, ((i, .rejected (.missingResult x)) : Settlement Nat Nat Unit) ∈
        settleBatch (.dedupe [1] [(1, [0, 1])]) (.ok [(1, some 5)])) ∧
    (∀ en ∈ ([⟨2, 1⟩] : List (QueueEntry Nat)), ∀ v, mapGet [(1, some 5)] en.item = some v →
      ((en.id, .resolved v) : Settlement Nat Nat Unit) ∈
        settleBatch (.invoc [⟨2, 1⟩]) (.ok [(1, some 5)])) ∧
    (∀ en ∈ ([⟨2, 1⟩] : List (QueueEntry Nat)), mapGet [(1, some 5)] en.item = none →
      ((en.id, .rejected (.missingResult en.item)) : Settlement Nat Nat Unit) ∈
        settleBatch (.invoc [⟨2, 1⟩]) (.ok [(1, some 5)])) :=
  c6_keyed_policy [(1, some 5)] [(1, [0, 1])] [1] [⟨2, 1⟩] (by simp)

/-- C8: the promise returned by `flush()` always resolves, whatever the
batch function does: for every outcome `flushFull` returns `.ok`, and when
the batch function rejects with `e` every settlement it performs is a
per-item rejection carrying that error — the failure surfaces only on the
dispatched requests, never on `flush` itself. -/
theorem c8_flush_always_resolves [DecidableEq T] (cfg : Config) (st : Collapser T)
    (res : Except E (JsMap T S)) :
    ∃ evs st1, flushFull cfg st res = .ok (evs, st1) ∧
      ∀ e, res = .error e → ∀ s ∈ evs, s.2 = .rejected (.batchErr e) := by
  by_cases hc : st.closed
  · refine ⟨[], st, by simp [flushFull, hc], ?_⟩
    intro e _ s hs
    simp at hs
  · rw [Bool.not_eq_true] at hc
    simp only [flushFull]
    rw [if_neg (by simp [hc])]
    by_cases hl : 0 < effLen cfg ({ st with timeoutArmed := false } : Collapser T)
    · rw [if_pos hl]
      rcases hsnap : snapBatch cfg ({ st with timeoutArmed := false } : Collapser T) with
        ⟨bq, st2⟩
      cases bq with
      | none =>
        refine ⟨[], st2, by simp [processBatchFull, hsnap], ?_⟩
        intro e _ s hs
        simp at hs
      | some b =>
        refine ⟨settleBatch b res, st2, by simp [processBatchFull, hsnap], ?_⟩
        rintro e rfl s hs
        rw [settleBatch_error] at hs
        obtain ⟨i, _, rfl⟩ := List.mem_map.mp hs
        rfl
    · rw [if_neg hl]
      refine ⟨[], { st with timeoutArmed := false }, rfl, ?_⟩
      intro e _ s hs
      simp at hs

end RequestCollapser

namespace CreateCollapser

open RequestCollapser (mapGet)

variable {A K R E : Type}

/-- C7: under the positional (array) result policy of `createCollapser`, a
result array whose length differs from the queue length rejects every
request with the count-mismatch error; when the lengths match, a slot that
is `undefined` rejects exactly the request at that index with the
undefined-result error and every defined slot resolves the request at its
index with that value. -/
theorem c7_positional_policy [DecidableEq K] (getKey : A → K) (q : List A)
    (rs : List (Option R)) :
    (rs.length ≠ q.length →
      settleQueue (E := E) getKey q (.ok (.arr rs)) =
        q.enum.map (fun p => (p.1, .rejected .countMismatch))) ∧
    (rs.length = q.length →
      (∀ i v, rs[i]? = some (some v) →
        ((i, .resolved v) : Nat × COut R E) ∈ settleQueue getKey q (.ok (.arr rs))) ∧
      (∀ i, rs[i]? = some none →
        ((i, .rejected .undefinedResult) : Nat × COut R E) ∈
          settleQueue getKey q (.ok (.arr rs)))) := by
  constructor
  · intro hne
    simp [settleQueue, hne]
  · intro hlen
    have hmem : ∀ i, i < q.length → ∃ a, (i, a) ∈ q.enum := by
      intro i hi
      exact ⟨q[i], List.mem_enum_iff_getElem?.mpr (List.getElem?_eq_getElem hi)⟩
    constructor
    · intro i v hv
      have hi : i < q.length := by
        have := (List.getElem?_eq_some.mp hv).1
        omega
      obtain ⟨a, ha⟩ := hmem i hi
      simp only [settleQueue, if_neg (by omega : ¬rs.length ≠ q.length)]
      exact List.mem_map.mpr ⟨(i, a), ha, by simp [hv]⟩
    · intro i hv
      have hi : i < q.length := by
        have := (List.getElem?_eq_some.mp hv).1
        omega
      obtain ⟨a, ha⟩ := hmem i hi
      simp only [settleQueue, if_neg (by omega : ¬rs.length ≠ q.length)]
      exact List.mem_map.mpr ⟨(i, a), ha, by simp [hv]⟩

end CreateCollapser

namespace RequestCollapser

variable {T S E : Type}

/-- C3: over every operation trace and every batch outcome, no pending
request is ever settled twice, and once nothing is queued or in flight every
pending request created by `process` has been settled exactly once. -/
theorem c3_settled_exactly_once [DecidableEq T] (cfg : Config) (ops : List (Op T S E)) :
    (∀ i : Nat, (evIds (runOps cfg ops)).count i ≤ 1) ∧
    (queueSinks cfg (runOps cfg ops).col = [] → (runOps cfg ops).inflight = [] →
      ∀ i ∈ (runOps cfg ops).created, (evIds (runOps cfg ops)).count i = 1) := by
  have h := goodRun_runOps cfg ops
  have hcount : ∀ i : Nat, (runOps cfg ops).created.count i =
      (evIds (runOps cfg ops)).count i +
      ((queueSinks cfg (runOps cfg ops).col).count i +
        (inflightSinks (runOps cfg ops).inflight).count i) := by
    intro i
    have hc := congrArg (Multiset.count i) h.part
    simpa [Multiset.count_add] using hc
  constructor
  · intro i
    have h1 : (runOps cfg ops).created.count i ≤ 1 :=
      List.nodup_iff_count_le_one.mp h.createdNodup i
    have h2 := hcount i
    omega
  · intro hq0 hf0 i hi
    have h1 : (runOps cfg ops).created.count i = 1 :=
      List.count_eq_one_of_mem h.createdNodup hi
    have h2 := hcount i
    rw [hq0, hf0] at h2
    simpa [inflightSinks] using h2.symm.trans (by omega)

/-- C4: with `maxQueueLength` configured (to `m ≥ 1`), the effective queue
length is at most `m` immediately after every `process` returns; a
submission that reaches the limit dispatches synchronously — before any
timer could fire — a batch of exactly `m` items, leaving the timer
cancelled; and a successful submission that brings the queue to the limit
always dispatches. -/
theorem c4_max_queue_length [DecidableEq T] (cfg : Config) (m : Nat)
    (hm : cfg.maxQueueLength = some m) (h1 : 1 ≤ m) (ops : List (Op T S E)) (x : T) :
    effLen cfg (processRun (E := E) cfg (runOps cfg ops).col x).2.2 ≤ m ∧
    (∀ b, (processRun (E := E) cfg (runOps cfg ops).col x).2.1 = some b →
      (batchItems b).length = m ∧
      (processRun (E := E) cfg (runOps cfg ops).col x).2.2.timeoutArmed = false) ∧
    ((runOps cfg ops).col.closed = false →
      m ≤ effLen cfg (pushItem cfg (runOps cfg ops).col x) →
      ∃ b, (processRun (E := E) cfg (runOps cfg ops).col x).2.1 = some b) := by
  have h := goodRun_runOps cfg ops
  have hlen : effLen cfg (runOps cfg ops).col < m := h.lenBound m hm h1
  by_cases hc : (runOps cfg ops).col.closed
  · have hpr : processRun (E := E) cfg (runOps cfg ops).col x =
        (.error .closed, none, (runOps cfg ops).col) := by
      simp [processRun, hc]
    rw [hpr]
    refine ⟨by simpa using Nat.le_of_lt hlen, ?_, ?_⟩
    · intro b hb
      simp at hb
    · intro hco
      rw [hc] at hco
      simp at hco
  · rw [Bool.not_eq_true] at hc
    have hpr : processRun (E := E) cfg (runOps cfg ops).col x =
        (.ok (runOps cfg ops).col.nextSink,
          (triggerCheck cfg (pushItem cfg (runOps cfg ops).col x)).1,
          (triggerCheck cfg (pushItem cfg (runOps cfg ops).col x)).2) := by
      simp [processRun, hc]
    rw [hpr]
    have heff := pushItem_effLen cfg (runOps cfg ops).col x
    rcases triggerCheck_cases cfg (pushItem cfg (runOps cfg ops).col x) with
      ⟨ht, m2, hm2, hle2⟩ | ⟨⟨a, ht⟩, hlt⟩
    · have hm2m : m = m2 := by
        have h2 := hm.symm.trans hm2
        injection h2
      subst hm2m
      have hop : ({ pushItem cfg (runOps cfg ops).col x with timeoutArmed := false } :
          Collapser T).closed = false := by
        simpa using (pushItem_closed cfg (runOps cfg ops).col x).trans hc
      have hks : ({ pushItem cfg (runOps cfg ops).col x with timeoutArmed := false } :
          Collapser T).dedupePromises.map Prod.fst =
          ({ pushItem cfg (runOps cfg ops).col x with timeoutArmed := false } :
            Collapser T).dedupeQueue := by
        simpa using pushItem_keysEq cfg (runOps cfg ops).col x h.keysEq
      rw [ht, snapBatch_open _ _ hop hks]
      have hexact : effLen cfg (pushItem cfg (runOps cfg ops).col x) = m := by omega
      refine ⟨by rw [effLen_stripQueues]; omega, ?_, fun _ _ => ⟨mkBatch cfg _, rfl⟩⟩
      intro b hb
      injection hb with hb2
      subst hb2
      constructor
      · rw [batchItems_mkBatch_length]
        rw [effLen_setArmed]
        exact hexact
      · exact stripQueues_armed cfg _
    · rw [ht]
      have hlt2 : effLen cfg (pushItem cfg (runOps cfg ops).col x) < m := hlt m hm
      refine ⟨by rw [effLen_setArmed]; omega, ?_, ?_⟩
      · intro b hb
        simp at hb
      · intro _ hge
        omega

/-- C5: submitting the items of `xs` within one window (no `maxQueueLength`
configured) dispatches nothing and settles nothing; the timer then fires
exactly once, capturing one batch whose items are all of `xs` in submission
order — the unique items in first-seen order in deduplicate mode — and
leaving the queue empty, so the batch function is invoked exactly once with
those items. -/
theorem c5_one_batch_per_window [DecidableEq T] (cfg : Config)
    (hq : cfg.maxQueueLength = none) (xs : List T) (hne : xs ≠ []) :
    (runOps cfg (xs.map (Op.proc (S := S) (E := E)))).inflight = [] ∧
    (runOps cfg (xs.map (Op.proc (S := S) (E := E)))).events = [] ∧
    ∃ b, (runOps cfg (xs.map (Op.proc (S := S) (E := E)) ++ [Op.timerFire])).inflight = [b] ∧
      batchItems b = (if cfg.deduplicate then firstSeen xs else xs) ∧
      effLen cfg (runOps cfg (xs.map (Op.proc (S := S) (E := E)) ++ [Op.timerFire])).col = 0 := by
  have hrun := runProcs (S := S) (E := E) cfg hq xs initRun rfl
  obtain ⟨ih1, ih2, ih3, ih4, ih5, ih6, ih7, ih8⟩ :=
    submitAll_state cfg hq xs initCollapser rfl rfl
  have harm : (submitAll cfg initCollapser xs).1.timeoutArmed = true := ih8 hne
  have hsnap := snapBatch_open cfg (submitAll cfg initCollapser xs).1 ih1 ih4
  rw [runOps, hrun]
  refine ⟨rfl, rfl, ?_⟩
  rw [runOps, List.foldl_append, hrun]
  refine ⟨mkBatch cfg (submitAll cfg initCollapser xs).1, ?_, ?_, ?_⟩
  · simp only [initRun, List.foldl_cons, List.foldl_nil, step, harm, reduceIte, hsnap]
    simp
  · rw [batchItems_mkBatch]
    cases hd : cfg.deduplicate with
    | true =>
      simp only [reduceIte]
      rw [ih5 hd]
      rfl
    | false =>
      simp only [Bool.false_eq_true, reduceIte]
      rw [ih6 hd]
      simp [entriesFrom_items, initCollapser]
  · simp only [initRun, List.foldl_cons, List.foldl_nil, step, harm, reduceIte, hsnap]
    rw [effLen_stripQueues]

end RequestCollapser

namespace RequestCollapser

variable {T S E : Type}

/-- C1: when a dispatched batch's batch function rejects with `e`, the
settlement rejects exactly the snapshot's pending requests, each with that
error; requests submitted after the snapshot was taken (while the dispatch
is in flight) are not among them, and a later dispatch captures exactly
those later requests as its own batch. -/
theorem c1_failed_batch_isolated [DecidableEq T] (cfg : Config)
    (hq : cfg.maxQueueLength = none) (ops : List (Op T S E)) (xs : List T) (e : E)
    (b : Batch T) (st1 : Collapser T)
    (hsnap : snapBatch cfg (runOps cfg ops).col = (some b, st1)) :
    settleBatch (S := S) b (.error e) =
      (batchSinks b).map (fun i => (i, .rejected (.batchErr e))) ∧
    (∀ i ∈ (submitAll cfg st1 xs).2, i ∉ batchSinks b) ∧
    ∃ b2 st2, snapBatch cfg (submitAll cfg st1 xs).1 = (some b2, st2) ∧
      (↑(batchSinks b2) : Multiset Nat) = ↑((submitAll cfg st1 xs).2) := by
  have h := goodRun_runOps cfg ops
  have hc : (runOps cfg ops).col.closed = false := by
    by_contra hcc
    rw [Bool.not_eq_false] at hcc
    rw [snapBatch_closed cfg _ hcc] at hsnap
    simp at hsnap
  rw [snapBatch_open cfg _ hc h.keysEq] at hsnap
  injection hsnap with h1 h2
  injection h1 with h1
  subst h1
  subst h2
  have hc1 : (stripQueues cfg (runOps cfg ops).col).closed = false := by
    rw [stripQueues_closed]
    exact hc
  have hk1 := stripQueues_keysEq cfg (runOps cfg ops).col h.keysEq
  obtain ⟨ha1, ha2, ha3, ha4, ha5, ha6, ha7, ha8⟩ :=
    submitAll_state cfg hq xs (stripQueues cfg (runOps cfg ops).col) hc1 hk1
  refine ⟨settleBatch_error _ e, ?_, ?_⟩
  · intro i hi hib
    rw [ha3] at hi
    have hge : (stripQueues cfg (runOps cfg ops).col).nextSink ≤ i := by
      rw [List.mem_range'] at hi
      omega
    rw [stripQueues_nextSink] at hge
    rw [batchSinks_mkBatch] at hib
    have := h.queueBound i hib
    omega
  · refine ⟨mkBatch cfg (submitAll cfg (stripQueues cfg (runOps cfg ops).col) xs).1,
      stripQueues cfg (submitAll cfg (stripQueues cfg (runOps cfg ops).col) xs).1,
      snapBatch_open cfg _ ha1 ha4, ?_⟩
    rw [batchSinks_mkBatch, ha7, queueSinks_stripQueues]
    simp [mcoe_nil]

/-- C10: with `deduplicate` disabled, two `process(x)` calls for the same
item in one window create two distinct pending requests; the single
dispatched batch hands `x` to the batch function twice, and both promises
settle independently with the same outcome, looked up by the key `x` in the
returned map. -/
theorem c10_duplicates_not_collapsed [DecidableEq T] (cfg : Config)
    (hdd : cfg.deduplicate = false) (hq : cfg.maxQueueLength = none) (x : T)
    (m : JsMap T S) :
    ∃ b : Batch T,
      (runOps cfg [Op.proc (S := S) (E := E) x, Op.proc x, Op.timerFire]).inflight = [b] ∧
      batchItems b = [x, x] ∧
      batchSinks b = [0, 1] ∧
      ∃ o : SOutcome T S E, settleBatch b (.ok m) = [(0, o), (1, o)] ∧
        (∀ v, mapGet m x = some v → o = .resolved v) ∧
        (mapGet m x = none → o = .rejected (.missingResult x)) := by
  have hrun := runProcs (S := S) (E := E) cfg hq [x, x] initRun rfl
  obtain ⟨ih1, ih2, ih3, ih4, ih5, ih6, ih7, ih8⟩ :=
    submitAll_state cfg hq [x, x] initCollapser rfl rfl
  have harm : (submitAll cfg initCollapser [x, x]).1.timeoutArmed = true := ih8 (by simp)
  have hsnap := snapBatch_open cfg (submitAll cfg initCollapser [x, x]).1 ih1 ih4
  have hiq : (submitAll cfg initCollapser [x, x]).1.invocationQueue =
      [⟨0, x⟩, ⟨1, x⟩] := by
    rw [ih6 hdd]
    simp [initCollapser, entriesFrom]
  have hmk : mkBatch cfg (submitAll cfg initCollapser [x, x]).1 =
      .invoc [⟨0, x⟩, ⟨1, x⟩] := by
    simp [mkBatch, hdd, hiq]
  refine ⟨Batch.invoc [⟨0, x⟩, ⟨1, x⟩], ?_, by simp [batchItems], by simp [batchSinks],
    lookupOutcome m x, by simp [settleBatch], ?_, ?_⟩
  · have hlist : ([Op.proc (S := S) (E := E) x, Op.proc x, Op.timerFire]) =
        ([x, x].map (Op.proc (S := S) (E := E)) ++ [Op.timerFire]) := by
      simp
    rw [hlist, runOps, List.foldl_append, hrun]
    simp only [initRun, List.foldl_cons, List.foldl_nil, step, harm, reduceIte, hsnap, hmk]
    simp
  · intro v hv
    rw [lookupOutcome_present hv]
  · intro hv
    rw [lookupOutcome_absent hv]

end RequestCollapser

namespace RequestCollapser

theorem c1_witness :
    settleBatch (S := Nat) (Batch.invoc [⟨0, 5⟩]) (.error 42) =
      (batchSinks (Batch.invoc [(⟨0, 5⟩ : QueueEntry Nat)])).map
        (fun i => (i, .rejected (.batchErr 42))) ∧
    (∀ i ∈ (submitAll ({} : Config)
        ({ closed := false, timeoutArmed := false, nextSink := 1, dedupeQueue := [],
           dedupePromises := [], invocationQueue := [] } : Collapser Nat) [7]).2,
      i ∉ batchSinks (Batch.invoc [(⟨0, 5⟩ : QueueEntry Nat)])) ∧
    ∃ b2 st2, snapBatch ({} : Config) (submitAll ({} : Config)
        ({ closed := false, timeoutArmed := false, nextSink := 1, dedupeQueue := [],
           dedupePromises := [], invocationQueue := [] } : Collapser Nat) [7]).1 =
        (some b2, st2) ∧
      (↑(batchSinks b2) : Multiset Nat) = ↑((submitAll ({} : Config)
        ({ closed := false, timeoutArmed := false, nextSink := 1, dedupeQueue := [],
           dedupePromises := [], invocationQueue := [] } : Collapser Nat) [7]).2) :=
  c1_failed_batch_isolated ({} : Config) rfl [Op.proc (S := Nat) 5] [7] 42
    (Batch.invoc [⟨0, 5⟩])
    ({ closed := false, timeoutArmed := false, nextSink := 1, dedupeQueue := [],
       dedupePromises := [], invocationQueue := [] } : Collapser Nat) (by decide)

theorem c4_witness :
    effLen { maxQueueLength := some 1 }
      (processRun (E := Nat) { maxQueueLength := some 1 }
        (runOps { maxQueueLength := some 1 } ([] : List (Op Nat Nat Nat))).col 9).2.2 ≤ 1 ∧
    (∀ b, (processRun (E := Nat) { maxQueueLength := some 1 }
        (runOps { maxQueueLength := some 1 } ([] : List (Op Nat Nat Nat))).col 9).2.1 =
          some b →
      (batchItems b).length = 1 ∧
      (processRun (E := Nat) { maxQueueLength := some 1 }
        (runOps { maxQueueLength := some 1 } ([] : List (Op Nat Nat Nat))).col
          9).2.2.timeoutArmed = false) ∧
    ((runOps { maxQueueLength := some 1 } ([] : List (Op Nat Nat Nat))).col.closed = false →
      1 ≤ effLen { maxQueueLength := some 1 }
        (pushItem { maxQueueLength := some 1 }
          (runOps { maxQueueLength := some 1 } ([] : List (Op Nat Nat Nat))).col 9) →
      ∃ b, (processRun (E := Nat) { maxQueueLength := some 1 }
        (runOps { maxQueueLength := some 1 } ([] : List (Op Nat Nat Nat))).col 9).2.1 =
          some b) :=
  c4_max_queue_length { maxQueueLength := some 1 } 1 rfl (by omega) [] 9

theorem c5_witness :
    (runOps ({} : Config) ([3, 4].map (Op.proc (S := Nat) (E := Nat)))).inflight = [] ∧
    (runOps ({} : Config) ([3, 4].map (Op.proc (S := Nat) (E := Nat)))).events = [] ∧
    ∃ b, (runOps ({} : Config)
        ([3, 4].map (Op.proc (S := Nat) (E := Nat)) ++ [Op.timerFire])).inflight = [b] ∧
      batchItems b = (if ({} : Config).deduplicate then firstSeen [3, 4] else [3, 4]) ∧
      effLen ({} : Config) (runOps ({} : Config)
        ([3, 4].map (Op.proc (S := Nat) (E := Nat)) ++ [Op.timerFire])).col = 0 :=
  c5_one_batch_per_window ({} : Config) rfl [3, 4] (by simp)

theorem c10_witness :
    ∃ b : Batch Nat,
      (runOps ({} : Config) [Op.proc (S := Nat) (E := Nat) 2, Op.proc 2,
        Op.timerFire]).inflight = [b] ∧
      batchItems b = [2, 2] ∧
      batchSinks b = [0, 1] ∧
      ∃ o : SOutcome Nat Nat Nat, settleBatch b (.ok [(2, some 9)]) = [(0, o), (1, o)] ∧
        (∀ v, mapGet [(2, some 9)] 2 = some v → o = .resolved v) ∧
        (mapGet ([(2, some 9)] : JsMap Nat Nat) 2 = none →
          o = .rejected (.missingResult 2)) :=
  c10_duplicates_not_collapsed ({} : Config) rfl rfl 2 [(2, some 9)]

end RequestCollapser
